import Mathlib

/-!
Verification of i2pboted: packet codec and SAM datagram transport.

A shallow embedding of `src/i2pbote/bote/protocol/comm/packet.go` and of the
framing and reply-classification code of `src/i2pbote/i2p/sam.go`.

Conventions.
* A Go `byte` is a natural number; no definition below does arithmetic on a
  byte other than the two big-endian reads.
* A Go slice is a `Slice`: the `len` visible elements plus the elements of the
  backing array between `len` and `cap`, so that the bounds rules of slice
  expressions (upper bound `cap`, not `len`) are kept.
* Where the identity of memory matters (`Parse` copies its argument), a slice
  is a `SliceRef` into a `Heap` of backing arrays; `Heap.view` reads it back
  as a `Slice`.
* A run-time panic is the `error` side of `Except Panic`.
* A Go `(value, err)` result is a pair of options (`none` is `nil`).
* Strings of the datagram layer are byte sequences; the lines and tokens of
  the SAM control protocol are rune sequences, since `bufio.ScanWords`
  separates words at runes.
* Results of the network and of the standard library (socket reads and
  writes, `strings.ToUpper`) are arguments of the definitions.
-/

namespace Go

/-- Run-time panics raised by index and slice expressions. -/
inductive Panic where
  | indexRange
  | sliceBounds
  deriving DecidableEq, Repr

deriving instance DecidableEq for Except

/-- A byte slice: `elems` are the elements `s[0] .. s[len-1]`, `spare` the
elements of the backing array from `len` up to `cap`. -/
structure Slice where
  elems : List Nat
  spare : List Nat
  deriving DecidableEq, Repr

/-- Length `len(s)`. -/
def Slice.len (s : Slice) : Nat := s.elems.length

/-- Capacity `cap(s)`. -/
def Slice.cap (s : Slice) : Nat := s.elems.length + s.spare.length

/-- Index expression `s[i]`: panics unless `i < len(s)`. -/
def Slice.index (s : Slice) (i : Nat) : Except Panic Nat :=
  match s.elems.get? i with
  | some b => .ok b
  | none => .error .indexRange

/-- Slice expression `s[lo:]`: the upper bound defaults to `len(s)`, so it
panics unless `lo ≤ len(s)`. -/
def Slice.sliceFrom (s : Slice) (lo : Nat) : Except Panic Slice :=
  if lo ≤ s.len then .ok ⟨s.elems.drop lo, s.spare⟩ else .error .sliceBounds

/-- Slice expression `s[lo:hi]`: panics unless `lo ≤ hi ≤ cap(s)`. -/
def Slice.sliceRange (s : Slice) (lo hi : Nat) : Except Panic Slice :=
  if lo ≤ hi ∧ hi ≤ s.cap then
    .ok ⟨((s.elems ++ s.spare).drop lo).take (hi - lo), (s.elems ++ s.spare).drop hi⟩
  else .error .sliceBounds

/-- Builtin `make([]byte, n)`: `n` zero bytes, capacity `n`. -/
def make (n : Nat) : List Nat := List.replicate n 0

/-- Builtin `copy(dst, src)`: overwrites the first `min(len(dst), len(src))`
elements of `dst`; the result is the new content of `dst`. -/
def copy (dst src : List Nat) : List Nat :=
  src.take (min dst.length src.length) ++ dst.drop (min dst.length src.length)

/-- The memory of byte arrays: `arrays[a]` is the content of backing array
number `a`; an allocation appends a new array. -/
structure Heap where
  arrays : List (List Nat)
  deriving DecidableEq, Repr

/-- A slice value as Go holds it: the number of its backing array, the offset
of `s[0]` in that array, the length and the capacity.  Two slices share memory
only if they have the same backing array. -/
structure SliceRef where
  arr : Nat
  off : Nat
  len : Nat
  cap : Nat
  deriving DecidableEq, Repr

/-- A slice value is well formed in a memory: its array exists and the
capacity lies inside it. -/
def Heap.valid (h : Heap) (s : SliceRef) : Prop :=
  s.arr < h.arrays.length ∧ s.len ≤ s.cap ∧ s.off + s.cap ≤ (h.arrays.getD s.arr []).length

/-- The bytes `s[0] .. s[len-1]` of a slice value in a memory. -/
def Heap.bytes (h : Heap) (s : SliceRef) : List Nat :=
  ((h.arrays.getD s.arr []).drop s.off).take s.len

/-- The `Slice` that a slice value denotes in a memory: its bytes and the
bytes between its length and its capacity. -/
def Heap.view (h : Heap) (s : SliceRef) : Slice :=
  ⟨h.bytes s, ((h.arrays.getD s.arr []).drop (s.off + s.len)).take (s.cap - s.len)⟩

/-- Builtin `make([]byte, n)` on the memory: a new array of `n` zero bytes and
the slice value over all of it. -/
def Heap.make (h : Heap) (n : Nat) : Heap × SliceRef :=
  (⟨h.arrays ++ [List.replicate n 0]⟩, ⟨h.arrays.length, 0, n, n⟩)

/-- Builtin `copy(dst, src)` on the memory: the first `min(len(dst), len(src))`
bytes of `src` are written into the array of `dst` from its offset on. -/
def Heap.copy (h : Heap) (dst src : SliceRef) : Heap :=
  ⟨h.arrays.set dst.arr
    ((h.arrays.getD dst.arr []).take dst.off ++ (h.bytes src).take (min dst.len src.len) ++
      (h.arrays.getD dst.arr []).drop (dst.off + min dst.len src.len))⟩

/-- Slice expression `s[lo:]` on a slice value: the same array, no copy. -/
def SliceRef.sliceFrom (s : SliceRef) (lo : Nat) : Except Panic SliceRef :=
  if lo ≤ s.len then .ok ⟨s.arr, s.off + lo, s.len - lo, s.cap - lo⟩ else .error .sliceBounds

end Go

namespace util

open Go

/-- Modelled from the spec: `util.UInt16_i` is not under src/; the spec reads
the two length fields as 2-byte big-endian integers.  It returns an `int`;
reading a slice shorter than two bytes is an index panic. -/
def UInt16_i (b : Slice) : Except Panic Nat := do
  let hi ← b.index 0
  let lo ← b.index 1
  return hi * 256 + lo

/-- Modelled from the spec: `util.UInt32` is not under src/; the spec reads the
delay as a 4-byte big-endian integer. -/
def UInt32 (b : Slice) : Except Panic Nat := do
  let b0 ← b.index 0
  let b1 ← b.index 1
  let b2 ← b.index 2
  let b3 ← b.index 3
  return ((b0 * 256 + b1) * 256 + b2) * 256 + b3

end util

namespace comm

open Go

/-- The comm packet type byte. -/
abbrev PacketType := Nat

/-- The i2pbote packet header. -/
def pktHeader : List Nat := [0x6D, 0x30, 0x52, 0xe9]

/-- Sentinel errors of the package. -/
inductive Err where
  | ErrTooSmall
  | ErrBadHeader
  | ErrInvalidSize
  deriving DecidableEq, Repr

def FetchReq : PacketType := 0x46
def Response : PacketType := 0x4e
def PeerListReq : PacketType := 0x41
def RelayReq : PacketType := 0x52

/-- Method `PacketType.Byte`. -/
def PacketType.Byte (t : PacketType) : Nat := t

/-- The raw communication packet. -/
structure Packet where
  Raw : Slice
  deriving DecidableEq, Repr

/-- Modelled from the spec: the struct `PeerListRequest` is declared outside
src/; its one field is the 32-byte content identifier. -/
structure PeerListRequest where
  CID : List Nat
  deriving DecidableEq, Repr

/-- The zero value `&PeerListRequest{}`. -/
def PeerListRequest.zero : PeerListRequest := ⟨make 32⟩

/-- Modelled from the spec: the struct `RelayRequest` is declared outside src/;
a 32-byte correlation ID, the hashcash bytes, the 32-bit delay, the 384-byte
next hop and the encrypted data. -/
structure RelayRequest where
  ID : List Nat
  HashCash : List Nat
  Delay : Nat
  Next : List Nat
  Data : List Nat
  deriving DecidableEq, Repr

/-- The zero value `new(RelayRequest)`. -/
def RelayRequest.zero : RelayRequest := ⟨make 32, [], 0, make 384, []⟩

/-- Method `Packet.Type`: reads `pkt.Raw[4]`. -/
def Packet.Type (pkt : Packet) : Except Panic PacketType :=
  pkt.Raw.index 4

/-- Method `Packet.Body`: `pkt.Raw[6:]`. -/
def Packet.Body (pkt : Packet) : Except Panic Slice :=
  pkt.Raw.sliceFrom 6

/-- Method `Packet.PeerListRequest`. -/
def Packet.PeerListRequest (pkt : Packet) :
    Except Panic (Option PeerListRequest × Option Err) := do
  let t ← pkt.Type
  if t = PeerListReq then
    let body ← pkt.Body
    if body.len = 32 then
      let r := PeerListRequest.zero
      let body0 ← body.sliceFrom 0
      return (some { r with CID := copy r.CID body0.elems }, none)
    else
      return (none, some Err.ErrInvalidSize)
  else
    return (none, none)

/-- Method `Packet.RelayRequest`. -/
def Packet.RelayRequest (pkt : Packet) :
    Except Panic (Option RelayRequest × Option Err) := do
  let t ← pkt.Type
  if t = RelayReq then
    let body ← pkt.Body
    let l := body.len
    if l < 32 + 2 + 4 + 384 + 2 then
      return (none, some Err.ErrTooSmall)
    else
      let r := RelayRequest.zero
      let r := { r with ID := copy r.ID body.elems }
      let hcl ← util.UInt16_i (← body.sliceFrom 32)
      if l < 32 + 2 + 4 + 384 + 2 + hcl then
        return (some r, some Err.ErrTooSmall)
      else
        let r := { r with HashCash := copy (make hcl) (← body.sliceFrom (32 + 2)).elems }
        let r := { r with Delay := ← util.UInt32 (← body.sliceFrom (32 + 2 + hcl)) }
        let r := { r with Next := copy r.Next (← body.sliceFrom (32 + 2 + 4 + hcl)).elems }
        let dl ← util.UInt16_i (← body.sliceFrom (32 + 2 + 4 + 384 + hcl))
        let i := 32 + 3 + 4 + 384 + 2 + hcl
        let r := { r with Data := copy (make dl) (← body.sliceRange i (i + dl)).elems }
        return (some r, none)
  else
    return (none, none)

/-- Function `New`.  The two index assignments are in range, the buffer having
at least 6 bytes. -/
def New (version : Nat) (t : PacketType) (payload : List Nat) : Packet :=
  let body := make (6 + payload.length)
  let body := copy body pktHeader
  let body := body.set 4 version
  let body := body.set 5 t.Byte
  ⟨⟨body, []⟩⟩

/-- The raw communication packet with `Raw` as a slice value in the memory. -/
structure PacketRef where
  Raw : SliceRef
  deriving DecidableEq, Repr

/-- Method `Packet.Body` on slice values: `pkt.Raw[6:]`, a view into the
packet's own array. -/
def PacketRef.Body (pkt : PacketRef) : Except Panic SliceRef :=
  pkt.Raw.sliceFrom 6

/-- Function `Parse`: parse a comm packet from a byte slice.  The memory is
explicit: `data` is the caller's slice value in the memory `h`, and the result
carries the memory after the call. -/
def ParseHeap (h : Heap) (data : SliceRef) : Heap × Option PacketRef × Option Err :=
  if data.len ≤ 6 then
    (h, none, some Err.ErrTooSmall)
  else if (h.bytes data).take 4 ≠ pktHeader then
    (h, none, some Err.ErrBadHeader)
  else
    let m := h.make data.len
    let h2 := m.1.copy m.2 data
    (h2, some ⟨m.2⟩, none)

/-- Function `Parse` as a function of the bytes of its argument: `ParseHeap`
run on a memory that holds the caller's buffer alone, the returned packet read
back from the memory after the call. -/
def Parse (data : List Nat) : Option Packet × Option Err :=
  let r := ParseHeap ⟨[data]⟩ ⟨0, 0, data.length, data.length⟩
  (r.2.1.map (fun pkt => ⟨r.1.view pkt.Raw⟩), r.2.2)

end comm

namespace bufio

/-- Standard library `bufio.isSpace`: the white space that separates the words
of `bufio.ScanWords`. -/
def isSpace (r : Char) : Bool :=
  if r.toNat ≤ 0xFF then
    r.toNat = 0x20 || r.toNat = 0x09 || r.toNat = 0x0A || r.toNat = 0x0B || r.toNat = 0x0C ||
      r.toNat = 0x0D || r.toNat = 0x85 || r.toNat = 0xA0
  else if 0x2000 ≤ r.toNat && r.toNat ≤ 0x200A then true
  else
    r.toNat = 0x1680 || r.toNat = 0x2028 || r.toNat = 0x2029 || r.toNat = 0x202F ||
      r.toNat = 0x205F || r.toNat = 0x3000

/-- Standard library constant `bufio.MaxScanTokenSize`, the largest size the
buffer of a `Scanner` grows to. -/
def MaxScanTokenSize : Nat := 64 * 1024

/-- The number of bytes of the UTF-8 encoding of a sequence of runes. -/
def utf8Len (s : List Char) : Nat := (s.map Char.utf8Size).sum

/-- Word splitting with the word under construction kept reversed in `cur`.
A word is delivered when the word and the white-space rune that ends it fit
the scanner buffer (at the end of the input: the word and one more byte, the
room for the read that reports the end); otherwise `Scan()` stops with
`ErrTooLong` and nothing more is delivered. -/
def scanWordsAux : List Char → List Char → List (List Char)
  | [], cur =>
    if cur = [] then []
    else if utf8Len cur + 1 ≤ MaxScanTokenSize then [cur.reverse]
    else []
  | c :: cs, cur =>
    if isSpace c then
      if cur = [] then scanWordsAux cs []
      else if utf8Len cur + c.utf8Size ≤ MaxScanTokenSize then
        cur.reverse :: scanWordsAux cs []
      else []
    else scanWordsAux cs (c :: cur)

/-- Standard library `bufio.Scanner` with the split function `bufio.ScanWords`
over `strings.NewReader(line)`: the successive values of `sc.Text()` for which
`sc.Scan()` is true.  The line is a sequence of runes (well-formed UTF-8). -/
def ScanWords (line : List Char) : List (List Char) := scanWordsAux line []

/-- Word splitting without a buffer: `cur` is the word under construction,
reversed. -/
def wordsAux : List Char → List Char → List (List Char)
  | [], cur => if cur = [] then [] else [cur.reverse]
  | c :: cs, cur =>
    if isSpace c then
      if cur = [] then wordsAux cs [] else cur.reverse :: wordsAux cs []
    else wordsAux cs (c :: cur)

/-- The words of a line: its maximal runs of runes that are not white space,
in order. -/
def words (line : List Char) : List (List Char) := wordsAux line []

end bufio

namespace bytes

/-- Search for `sep` from position `k` on. -/
def indexFrom (sep : List Nat) : List Nat → Nat → Int
  | [], k => if sep = [] then (k : Int) else -1
  | x :: xs, k => if sep.isPrefixOf (x :: xs) then (k : Int) else indexFrom sep xs (k + 1)

/-- Standard library `bytes.Index(s, sep)`: the index of the first instance of
`sep` in `s`, or -1 when there is none. -/
def Index (s sep : List Nat) : Int := indexFrom sep s 0

end bytes

namespace i2p

open Go

/-- MTU of datagrams. -/
def DatagramMTU : Nat := 65536

/-- Error values: the sentinel of the package, the values made by
`errors.New`, and errors handed back by the network. -/
inductive Err where
  | ErrDatagramOverflow
  | New (msg : List Char)
  | network (code : Nat)
  deriving DecidableEq, Repr

/-- A `net.Addr` as the code observes it: the results of `Network()` and of
`String()`, the latter as bytes. -/
structure NetAddr where
  network : List Char
  string : List Nat
  deriving DecidableEq, Repr

/-- A handle on an open `net.Conn`. -/
abbrev Conn := Nat

/-- The statement `copy(dst[off:], src)` for `off ≤ len(dst)`. -/
def copyAt (dst : List Nat) (off : Nat) (src : List Nat) : List Nat :=
  dst.take off ++ copy (dst.drop off) src

/-- Method `samPacketConn.WriteTo`.  `name` is `[]byte(s.s.name)`, `send` is the
underlying `s.c.WriteTo(sd, s.a)` and `ToUpper` is `strings.ToUpper`.  The
result is `(n, err)` together with the datagrams handed to the socket.  Every
index and slice bound is at most `l ≤ len(sd)`, so no statement panics. -/
def samPacketConn.WriteTo (ToUpper : List Char → List Char) (name : List Nat)
    (send : List Nat → Int × Option Err) (d : List Nat) (toAddr : NetAddr) :
    (Int × Option Err) × List (List Nat) :=
  if ToUpper toAddr.network ≠ "I2P".data then
    ((0, some (Err.New "cannot send to non i2p network".data)), [])
  else
    let a := toAddr.string
    let l := 4 + name.length + 1 + a.length + 1
    let sd := make (d.length + l)
    let sd := sd.set 0 51
    let sd := sd.set 1 46
    let sd := sd.set 2 48
    let sd := sd.set 3 32
    let sd := copyAt sd 4 name
    let i := 4 + name.length
    let sd := sd.set i 32
    let sd := copyAt sd i a
    let sd := sd.set (l - 1) 10
    let sd := copyAt sd l d
    let r := send sd
    if r.2 = none then ((r.1 - (l : Int), r.2), [sd]) else (r, [sd])

/-- The results of `samPacketConn.ReadFrom` and the content of the caller
buffer `d` afterwards. -/
structure ReadResult where
  n : Int
  addr : Option (List Nat)
  err : Option Err
  d : List Nat
  deriving DecidableEq, Repr

/-- Method `samPacketConn.ReadFrom`.  The underlying `s.c.ReadFrom(b[:])`
delivers the datagram `dg` (cut to the size of `b`) with error `rerr`. -/
def samPacketConn.ReadFrom (dg : List Nat) (rerr : Option Err) (d : List Nat) :
    Except Panic ReadResult := do
  let b : Slice := ⟨copy (make DatagramMTU) dg, []⟩
  let rn : Int := min dg.length DatagramMTU
  if rerr = none then
    let i := bytes.Index b.elems [10]
    if i > 1 then
      let addr := (← b.sliceRange 0 (i + 1).toNat).elems
      let l := rn - (i + 1)
      if (d.length : Int) ≤ l then
        let src ← b.sliceRange (i + 1).toNat rn.toNat
        return ⟨0, some addr, none, copy d src.elems⟩
      else
        return ⟨-1, some addr, some Err.ErrDatagramOverflow, d⟩
    else
      return ⟨0, none, none, d⟩
  else
    return ⟨0, none, rerr, d⟩

/-- The HELLO handshake of `samSession.connect` after the address has been
chosen: `dial` is the result of `net.Dial`, `sent` the error of writing the
HELLO line, `reply` the result of `r.ReadString(10)`. -/
def samSession.connect (dial : Option Conn × Option Err) (sent : Option Err)
    (reply : List Char × Option Err) : Option Conn × Option Err :=
  if dial.2 = none then
    if sent = none then
      if reply.2 = none then
        if reply.1 = "HELO REPLY RESULT=NOVERSION".data then
          (none, some (Err.New "router does not support sam version 3".data))
        else if "HELLO REPLY RESULT=OK".data.isPrefixOf reply.1 then
          (dial.1, none)
        else
          (none, some (Err.New reply.1))
      else (none, reply.2)
    else (none, sent)
  else dial

/-- The token loop of `samSession.LookupI2P` over the remaining scanner tokens,
threading the named results `(a, err)`. -/
def samSession.LookupI2P.scan (name line : List Char) :
    List (List Char) → List Char × Option Err → List Char × Option Err
  | [], st => st
  | t :: ts, st =>
    if t = "RESULT=OK".data ∨ t = "NAMING".data ∨ t = "REPLY".data then
      scan name line ts st
    else if t = "NAME=".data ++ name ∨ t = "NAME=ME".data then
      scan name line ts st
    else if "VALUE=".data.isPrefixOf t then
      (t.drop 6, st.2)
    else
      scan name line ts (st.1, some (Err.New line))

/-- Method `samSession.LookupI2P`: `conn` is the result of `s.connect("")`,
`sent` the error of writing the NAMING LOOKUP line, `reply` the result of
`r.ReadString(10)`. -/
def samSession.LookupI2P (conn : Option Conn × Option Err) (sent : Option Err)
    (reply : List Char × Option Err) (name : List Char) : List Char × Option Err :=
  if conn.2 = none then
    if sent = none then
      if reply.2 = none then
        samSession.LookupI2P.scan name reply.1 (bufio.ScanWords reply.1) ([], none)
      else ([], reply.2)
    else ([], sent)
  else ([], conn.2)

/-- The reply tokens that the loop of `LookupI2P` skips over. -/
def skippedTokens (name : List Char) : List (List Char) :=
  ["RESULT=OK".data, "NAMING".data, "REPLY".data, "NAME=".data ++ name, "NAME=ME".data]

/-- The byte sequence that `WriteTo` assembles for session name `name`,
address bytes `a` and payload `d`: "3.0 ", the name, the address written over
the separating space and followed by a zero byte (for an empty address the
space alone), a line feed, the payload. -/
def builtDatagram (name a d : List Nat) : List Nat :=
  [51, 46, 48, 32] ++ name ++ (if a = [] then [32] else a ++ [0]) ++ [10] ++ d

end i2p

namespace comm

/-- The 2-byte big-endian encoding `BE16` of the relay-request wire layout. -/
def BE16 (n : Nat) : List Nat := [n / 256 % 256, n % 256]

/-- The 4-byte big-endian encoding `BE32` of the relay-request wire layout. -/
def BE32 (n : Nat) : List Nat :=
  [n / 16777216 % 256, n / 65536 % 256, n / 256 % 256, n % 256]

/-- The relay-request body as the specification lays it out: correlation ID,
hashcash length, hashcash, delay, next hop, data length, data, padding. -/
def relayBody (ID hc : List Nat) (delay : Nat) (next data padding : List Nat) : List Nat :=
  ID ++ BE16 hc.length ++ hc ++ BE32 delay ++ next ++ BE16 data.length ++ data ++ padding

/-- The big-endian 16-bit value stored at offset `off` of a byte sequence. -/
def be16At (bs : List Nat) (off : Nat) : Nat :=
  bs.getD off 0 * 256 + bs.getD (off + 1) 0

/-- The big-endian 32-bit value stored at offset `off` of a byte sequence. -/
def be32At (bs : List Nat) (off : Nat) : Nat :=
  ((bs.getD off 0 * 256 + bs.getD (off + 1) 0) * 256 + bs.getD (off + 2) 0) * 256
    + bs.getD (off + 3) 0

end comm

namespace Go

theorem bind_ok {α β : Type} (a : α) (f : α → Except Panic β) :
    (Except.ok a >>= f) = f a := rfl

theorem Slice.index_ok (s : Slice) (i : Nat) (h : i < s.elems.length) :
    s.index i = .ok (s.elems.getD i 0) := by
  unfold Slice.index
  rw [List.getD_eq_getElem?_getD, List.get?_eq_getElem?, List.getElem?_eq_getElem h]
  rfl

theorem Slice.sliceFrom_ok (s : Slice) (lo : Nat) (h : lo ≤ s.elems.length) :
    s.sliceFrom lo = .ok ⟨s.elems.drop lo, s.spare⟩ := by
  simp [Slice.sliceFrom, Slice.len, h]

end Go

namespace comm

open Go

theorem getD_drop (bs : List Nat) (k i : Nat) : (bs.drop k).getD i 0 = bs.getD (k + i) 0 := by
  simp [List.getD_eq_getElem?_getD, List.getElem?_drop]

theorem UInt16_i_drop (s : Slice) (k : Nat) (h : k + 2 ≤ s.elems.length) :
    util.UInt16_i ⟨s.elems.drop k, s.spare⟩ = .ok (be16At s.elems k) := by
  unfold util.UInt16_i
  rw [Slice.index_ok _ 0 (by simp; omega), Slice.index_ok _ 1 (by simp; omega)]
  simp [bind, Except.bind, pure, Except.pure, getD_drop, be16At]

theorem UInt32_drop (s : Slice) (k : Nat) (h : k + 4 ≤ s.elems.length) :
    util.UInt32 ⟨s.elems.drop k, s.spare⟩ = .ok (be32At s.elems k) := by
  unfold util.UInt32
  rw [Slice.index_ok _ 0 (by simp; omega), Slice.index_ok _ 1 (by simp; omega),
    Slice.index_ok _ 2 (by simp; omega), Slice.index_ok _ 3 (by simp; omega)]
  simp [bind, Except.bind, pure, Except.pure, getD_drop, be32At]

/-- What `RelayRequest` does once both size guards have passed: it slices
`body[i:i+dl]` at `i = 425 + hcl` and panics when that exceeds the capacity. -/
theorem RelayRequest_past_guards (pkt : Packet) (body : Slice)
    (ht : pkt.Type = .ok RelayReq) (hb : pkt.Body = .ok body)
    (hl : 424 + be16At body.elems 32 ≤ body.len) :
    pkt.RelayRequest =
      if 425 + be16At body.elems 32 + be16At body.elems (422 + be16At body.elems 32) ≤ body.cap then
        .ok (some
          { ID := copy (make 32) body.elems
            HashCash := copy (make (be16At body.elems 32)) (body.elems.drop 34)
            Delay := be32At body.elems (34 + be16At body.elems 32)
            Next := copy (make 384) (body.elems.drop (38 + be16At body.elems 32))
            Data := copy (make (be16At body.elems (422 + be16At body.elems 32)))
              (((body.elems ++ body.spare).drop (425 + be16At body.elems 32)).take
                (be16At body.elems (422 + be16At body.elems 32))) }, none)
      else .error .sliceBounds := by
  have hlen : body.len = body.elems.length := rfl
  rw [hlen] at hl
  have h1 := Slice.sliceFrom_ok body 32 (by omega)
  have h2 := UInt16_i_drop body 32 (by omega)
  have h3 := Slice.sliceFrom_ok body (32 + 2) (by omega)
  have h4 := Slice.sliceFrom_ok body (32 + 2 + be16At body.elems 32) (by omega)
  have h5 := UInt32_drop body (32 + 2 + be16At body.elems 32) (by omega)
  have h6 := Slice.sliceFrom_ok body (32 + 2 + 4 + be16At body.elems 32) (by omega)
  have h7 := Slice.sliceFrom_ok body (32 + 2 + 4 + 384 + be16At body.elems 32) (by omega)
  have h8 := UInt16_i_drop body (32 + 2 + 4 + 384 + be16At body.elems 32) (by omega)
  have e1 : 32 + 2 + be16At body.elems 32 = 34 + be16At body.elems 32 := by omega
  have e2 : 32 + 2 + 4 + be16At body.elems 32 = 38 + be16At body.elems 32 := by omega
  have e3 : 32 + 2 + 4 + 384 + be16At body.elems 32 = 422 + be16At body.elems 32 := by omega
  have e4 : 32 + 3 + 4 + 384 + 2 + be16At body.elems 32 = 425 + be16At body.elems 32 := by omega
  unfold Packet.RelayRequest
  rw [ht, hb]
  simp only [bind, Except.bind, pure, Except.pure, if_true]
  rw [if_neg (by omega)]
  simp only [h1, h2]
  rw [if_neg (by omega)]
  simp only [h3, h4, h5, h6, h7, h8]
  simp only [e1, e2, e3, e4, Slice.sliceRange, RelayRequest.zero]
  by_cases hc : 425 + be16At body.elems 32 + be16At body.elems (422 + be16At body.elems 32) ≤ body.cap
  · rw [if_pos hc, if_pos ⟨by omega, hc⟩]
    simp
  · rw [if_neg hc, if_neg (by tauto)]

theorem Heap.bytes_length (h : Heap) (s : SliceRef) (hv : h.valid s) :
    (h.bytes s).length = s.len := by
  obtain ⟨_, h2, h3⟩ := hv
  simp only [Heap.bytes, List.length_take, List.length_drop]
  omega

theorem Heap.bytes_whole (arrs : List (List Nat)) (k n : Nat) (B : List Nat)
    (hn : B.length = n) (hg : arrs.getD k [] = B) :
    (⟨arrs⟩ : Heap).bytes ⟨k, 0, n, n⟩ = B := by
  simp only [Heap.bytes, hg, List.drop_zero]
  rw [← hn, List.take_length]

theorem Heap.bytes_tail (arrs : List (List Nat)) (k n lo : Nat) (B : List Nat)
    (hn : B.length = n) (hg : arrs.getD k [] = B) :
    (⟨arrs⟩ : Heap).bytes ⟨k, 0 + lo, n - lo, n - lo⟩ = B.drop lo := by
  simp only [Heap.bytes, hg, Nat.zero_add]
  apply List.take_of_length_le
  simp only [List.length_drop]
  omega

/-- What `ParseHeap` does on an accepted buffer: it allocates array number
`len(arrays)`, fills it with the bytes of `data` and returns the slice value
over it. -/
theorem ParseHeap_accept (h : Heap) (data : SliceRef) (hv : h.valid data)
    (h6 : 6 < data.len) (hh : (h.bytes data).take 4 = pktHeader) :
    ParseHeap h data = (⟨h.arrays ++ [h.bytes data]⟩,
      some ⟨⟨h.arrays.length, 0, data.len, data.len⟩⟩, none) := by
  have hlen := Heap.bytes_length h data hv
  have harr : data.arr < h.arrays.length := hv.1
  have hb1 : (⟨h.arrays ++ [List.replicate data.len 0]⟩ : Heap).bytes data = h.bytes data := by
    simp only [Heap.bytes]
    rw [List.getD_append _ _ _ _ harr]
  have hg : (h.arrays ++ [List.replicate data.len 0]).getD h.arrays.length []
      = List.replicate data.len 0 := by
    rw [List.getD_append_right _ _ _ _ (le_refl _)]
    simp
  have hset : (h.arrays ++ [List.replicate data.len 0]).set h.arrays.length (h.bytes data)
      = h.arrays ++ [h.bytes data] := by
    rw [List.set_append, if_neg (lt_irrefl _)]
    simp
  unfold ParseHeap
  rw [if_neg (by omega), if_neg (by simpa using hh)]
  simp only [Heap.make, Heap.copy, hb1, hg, Nat.min_self, List.take_zero, List.nil_append,
    Nat.zero_add]
  have ht : List.take data.len (h.bytes data) = h.bytes data := by
    rw [← hlen, List.take_length]
  have hd : List.drop data.len (List.replicate data.len 0) = [] := by simp
  rw [ht, hd, List.append_nil, hset]

/-- The three outcomes of `Parse` as a function of the bytes of the buffer. -/
theorem Parse_bytes (buf : List Nat) :
    (buf.length ≤ 6 → Parse buf = (none, some Err.ErrTooSmall)) ∧
    (6 < buf.length → buf.take 4 ≠ [0x6D, 0x30, 0x52, 0xE9] →
      Parse buf = (none, some Err.ErrBadHeader)) ∧
    (6 < buf.length → buf.take 4 = [0x6D, 0x30, 0x52, 0xE9] →
      ∃ pkt, Parse buf = (some pkt, none) ∧ pkt.Raw = ⟨buf, []⟩ ∧
        pkt.Body = .ok ⟨buf.drop 6, []⟩) := by
  have hb : (⟨[buf]⟩ : Heap).bytes ⟨0, 0, buf.length, buf.length⟩ = buf :=
    Heap.bytes_whole _ _ _ _ rfl rfl
  have hv : (⟨[buf]⟩ : Heap).valid ⟨0, 0, buf.length, buf.length⟩ :=
    ⟨by simp, le_refl _, by simp⟩
  refine ⟨?_, ?_, ?_⟩
  · intro h
    simp [Parse, ParseHeap, h]
  · intro h hne
    have h6 : ¬ buf.length ≤ 6 := by omega
    simp only [Parse, ParseHeap, if_neg h6, hb, pktHeader]
    rw [if_pos hne]
    rfl
  · intro h heq
    have hacc := ParseHeap_accept ⟨[buf]⟩ ⟨0, 0, buf.length, buf.length⟩ hv h
      (by rw [hb]; exact heq)
    rw [hb] at hacc
    have hview : (⟨[buf] ++ [buf]⟩ : Heap).view ⟨[buf].length, 0, buf.length, buf.length⟩
        = ⟨buf, []⟩ := by
      have : (⟨[buf] ++ [buf]⟩ : Heap).bytes ⟨[buf].length, 0, buf.length, buf.length⟩ = buf :=
        Heap.bytes_whole _ _ _ _ rfl rfl
      simp only [Heap.view, this, Nat.sub_self, List.take_zero]
    refine ⟨⟨⟨buf, []⟩⟩, ?_, rfl, ?_⟩
    · simp only [Parse, hacc, Option.map_some', hview]
    · exact Slice.sliceFrom_ok _ 6 (by simpa using h.le)

/-- C1: `Parse` fails with `ErrTooSmall` on a buffer of at most 6 bytes and
with `ErrBadHeader` on a longer buffer whose first four bytes are not
6D 30 52 E9, leaving the memory as it was; otherwise it succeeds with a packet
whose `Raw` is a fresh copy: a newly allocated array (not the caller's, none
of the existing ones, which stay as they were) of capacity `len(buf)` holding
the bytes of `buf` one for one, which no later write to an existing array,
the caller's buffer included, changes; `Body()` is the bytes of `buf` from
offset 6 on. -/
theorem Parse_spec (h : Heap) (buf : SliceRef) (hv : h.valid buf) :
    (buf.len ≤ 6 →
      ParseHeap h buf = (h, none, some Err.ErrTooSmall) ∧
      Parse (h.bytes buf) = (none, some Err.ErrTooSmall)) ∧
    (6 < buf.len → (h.bytes buf).take 4 ≠ [0x6D, 0x30, 0x52, 0xE9] →
      ParseHeap h buf = (h, none, some Err.ErrBadHeader) ∧
      Parse (h.bytes buf) = (none, some Err.ErrBadHeader)) ∧
    (6 < buf.len → (h.bytes buf).take 4 = [0x6D, 0x30, 0x52, 0xE9] →
      ∃ h2 pkt, ParseHeap h buf = (h2, some pkt, none) ∧
        pkt.Raw.arr = h.arrays.length ∧ pkt.Raw.arr ≠ buf.arr ∧
        (∀ a, a < h.arrays.length → h2.arrays.getD a [] = h.arrays.getD a []) ∧
        h2.valid pkt.Raw ∧ pkt.Raw.len = buf.len ∧ pkt.Raw.cap = buf.len ∧
        h2.bytes pkt.Raw = h.bytes buf ∧
        (∀ a new, a < h.arrays.length →
          (⟨h2.arrays.set a new⟩ : Heap).bytes pkt.Raw = h.bytes buf) ∧
        (∃ body, pkt.Body = .ok body ∧ body.arr = pkt.Raw.arr ∧
          h2.bytes body = (h.bytes buf).drop 6) ∧
        Parse (h.bytes buf) = (some ⟨h2.view pkt.Raw⟩, none)) := by
  have hlen := Heap.bytes_length h buf hv
  have harr : buf.arr < h.arrays.length := hv.1
  have hval := Parse_bytes (h.bytes buf)
  rw [hlen] at hval
  refine ⟨?_, ?_, ?_⟩
  · intro h6
    exact ⟨by simp [ParseHeap, h6], hval.1 h6⟩
  · intro h6 hne
    refine ⟨?_, hval.2.1 h6 hne⟩
    unfold ParseHeap
    rw [if_neg (by omega), if_pos (by simpa [pktHeader] using hne)]
  · intro h6 heq
    have hg : (h.arrays ++ [h.bytes buf]).getD h.arrays.length [] = h.bytes buf := by
      rw [List.getD_append_right _ _ _ _ (le_refl _)]
      simp
    have hbytes : (⟨h.arrays ++ [h.bytes buf]⟩ : Heap).bytes ⟨h.arrays.length, 0, buf.len, buf.len⟩
        = h.bytes buf := Heap.bytes_whole _ _ _ _ hlen hg
    refine ⟨⟨h.arrays ++ [h.bytes buf]⟩, ⟨⟨h.arrays.length, 0, buf.len, buf.len⟩⟩,
      ParseHeap_accept h buf hv h6 heq, rfl, ?_, ?_, ?_, rfl, rfl, hbytes, ?_, ?_, ?_⟩
    · exact fun e => absurd harr (by rw [← e]; exact lt_irrefl _)
    · intro a ha
      exact List.getD_append _ _ _ _ ha
    · refine ⟨by simp, le_refl _, ?_⟩
      simp only [hg, Nat.zero_add]
      omega
    · intro a new ha
      have hs : (h.arrays ++ [h.bytes buf]).set a new = h.arrays.set a new ++ [h.bytes buf] := by
        rw [List.set_append, if_pos ha]
      have hg2 : (h.arrays.set a new ++ [h.bytes buf]).getD h.arrays.length [] = h.bytes buf := by
        rw [List.getD_append_right _ _ _ _ (by simp)]
        simp
      show (⟨(h.arrays ++ [h.bytes buf]).set a new⟩ : Heap).bytes
        ⟨h.arrays.length, 0, buf.len, buf.len⟩ = h.bytes buf
      rw [hs]
      exact Heap.bytes_whole _ _ _ _ hlen hg2
    · refine ⟨⟨h.arrays.length, 0 + 6, buf.len - 6, buf.len - 6⟩, ?_, rfl, ?_⟩
      · simp only [PacketRef.Body, SliceRef.sliceFrom]
        rw [if_pos (by omega)]
      · exact Heap.bytes_tail _ _ _ 6 _ hlen hg
    · obtain ⟨pkt, hp, hraw, _⟩ := hval.2.2 h6 heq
      rw [hp]
      have hview : (⟨h.arrays ++ [h.bytes buf]⟩ : Heap).view ⟨h.arrays.length, 0, buf.len, buf.len⟩
          = ⟨h.bytes buf, []⟩ := by
        simp only [Heap.view, hbytes, Nat.sub_self, List.take_zero]
      rw [hview]
      cases pkt
      simp only at hraw
      rw [hraw]

/-- Witness for C1: the caller's 8-byte buffer is array 0 of the memory; the
packet is the new array 1 with the same bytes, and its body is the last two
bytes. -/
theorem Parse_spec_witness :
    ∃ h2 pkt, ParseHeap ⟨[[0x6D, 0x30, 0x52, 0xE9, 1, 0x46, 7, 9]]⟩ ⟨0, 0, 8, 8⟩
        = (h2, some pkt, none) ∧
      pkt.Raw.arr = 1 ∧ pkt.Raw.arr ≠ 0 ∧
      h2.bytes pkt.Raw = [0x6D, 0x30, 0x52, 0xE9, 1, 0x46, 7, 9] ∧
      (⟨h2.arrays.set 0 [0, 0, 0, 0, 0, 0, 0, 0]⟩ : Heap).bytes pkt.Raw
        = [0x6D, 0x30, 0x52, 0xE9, 1, 0x46, 7, 9] ∧
      (∃ body, pkt.Body = .ok body ∧ h2.bytes body = [7, 9]) := by
  obtain ⟨h2, pkt, hp, ha, hne, _, _, _, _, hb, hw, ⟨body, hbody, _, hbb⟩, _⟩ :=
    (Parse_spec ⟨[[0x6D, 0x30, 0x52, 0xE9, 1, 0x46, 7, 9]]⟩ ⟨0, 0, 8, 8⟩
      ⟨by decide, by decide, by decide⟩).2.2 (by decide) (by decide)
  exact ⟨h2, pkt, hp, ha, hne, hb, hw 0 _ (by decide), body, hbody, hbb⟩

set_option maxRecDepth 100000 in
/-- C2 (code evaluated at the failing input): the body laid out as the
specification says, with data AA AB and one padding byte BB, decodes to the
data AB BB; the same body without padding makes the decoder panic. -/
theorem RelayRequest_decode_shifted :
    Packet.RelayRequest ⟨⟨[0x6D, 0x30, 0x52, 0xE9, 0x52, 0x52] ++
        relayBody (List.replicate 32 1) [7] 5 (List.replicate 384 2) [0xAA, 0xAB] [0xBB], []⟩⟩
      = .ok (some ⟨List.replicate 32 1, [7], 5, List.replicate 384 2, [0xAB, 0xBB]⟩, none) ∧
    Packet.RelayRequest ⟨⟨[0x6D, 0x30, 0x52, 0xE9, 0x52, 0x52] ++
        relayBody (List.replicate 32 1) [7] 5 (List.replicate 384 2) [0xAA, 0xAB] [], []⟩⟩
      = .error .sliceBounds := by
  decide

/-- C3 (code evaluated at the failing input): the wire packet
6D 30 52 E9 01 41 followed by 32 zero bytes is accepted by `Parse`, but
`Type()` reads the version byte 01, so `PeerListRequest()` returns a nil
request with a nil error. -/
theorem PeerListRequest_reads_version_byte :
    ∃ pkt, Parse ([0x6D, 0x30, 0x52, 0xE9, 0x01, 0x41] ++ List.replicate 32 0) = (some pkt, none) ∧
      pkt.Type = .ok 0x01 ∧ pkt.PeerListRequest = .ok (none, none) :=
  ⟨⟨⟨[0x6D, 0x30, 0x52, 0xE9, 0x01, 0x41] ++ List.replicate 32 0, []⟩⟩,
    by decide, by decide, by decide⟩

/-- C4 (what the code does): `New` writes the header, the version and the type
byte and leaves the rest of the buffer zero; the payload bytes are never
copied, so `Body()` is `len(payload)` zero bytes. -/
theorem New_leaves_payload_zero (v : Nat) (t : PacketType) (p : List Nat) :
    (New v t p).Raw = ⟨[0x6D, 0x30, 0x52, 0xE9, v, t] ++ List.replicate p.length 0, []⟩ ∧
    (New v t p).Body = .ok ⟨List.replicate p.length 0, []⟩ ∧
    (New 1 PeerListReq [0xFF]).Body ≠ .ok ⟨[0xFF], []⟩ := by
  have hraw : (New v t p).Raw = ⟨[0x6D, 0x30, 0x52, 0xE9, v, t] ++ List.replicate p.length 0, []⟩ := by
    have h6 : 6 + p.length = p.length + 6 := by omega
    simp [New, make, copy, pktHeader, PacketType.Byte, h6, List.replicate_succ]
  refine ⟨hraw, ?_, by decide⟩
  rw [Packet.Body, hraw]
  simp [Slice.sliceFrom, Slice.len]

set_option maxRecDepth 100000 in
/-- C5 (counterexample): a relay-request packet accepted by `Parse` whose body
is exactly `424 + hcl` bytes long (here `hcl = 1`, 425 bytes) does not fail with
`ErrTooSmall`: both size guards pass and the decoder panics on the data
slice. -/
theorem RelayRequest_exact_length_not_too_small :
    ∃ pkt body,
      Parse ([0x6D, 0x30, 0x52, 0xE9, 0x52, 0] ++ List.replicate 33 0 ++ [1] ++
        List.replicate 391 0) = (some pkt, none) ∧
      pkt.Type = .ok RelayReq ∧ pkt.Body = .ok body ∧
      body.len = 424 + be16At body.elems 32 ∧
      pkt.RelayRequest = .error .sliceBounds ∧
      ¬ ∃ r, pkt.RelayRequest = .ok (r, some Err.ErrTooSmall) :=
  ⟨⟨⟨[0x6D, 0x30, 0x52, 0xE9, 0x52, 0] ++ List.replicate 33 0 ++ [1] ++ List.replicate 391 0, []⟩⟩,
    ⟨List.replicate 33 0 ++ [1] ++ List.replicate 391 0, []⟩,
    by decide, by decide, by decide, by decide, by decide,
    by
      rintro ⟨r, hr⟩
      have h : Packet.RelayRequest ⟨⟨[0x6D, 0x30, 0x52, 0xE9, 0x52, 0] ++ List.replicate 33 0 ++ [1]
          ++ List.replicate 391 0, []⟩⟩ = .error .sliceBounds := by decide
      rw [h] at hr
      exact Except.noConfusion hr⟩

/-- C5 (amended): for a packet whose `Type()` is `RelayReq`, `RelayRequest()`
returns `ErrTooSmall` with a nil request when the body is shorter than 424
bytes, returns `ErrTooSmall` (with a request holding only the correlation ID)
when the body has at least 424 bytes but fewer than `424 + hcl`, and never
returns `ErrTooSmall` when the body has `424 + hcl` bytes or more. -/
theorem RelayRequest_too_small (pkt : Packet) (body : Slice)
    (ht : pkt.Type = .ok RelayReq) (hb : pkt.Body = .ok body) :
    (body.len < 424 → pkt.RelayRequest = .ok (none, some Err.ErrTooSmall)) ∧
    (424 ≤ body.len → body.len < 424 + be16At body.elems 32 →
      pkt.RelayRequest =
        .ok (some { RelayRequest.zero with ID := body.elems.take 32 }, some Err.ErrTooSmall)) ∧
    (424 + be16At body.elems 32 ≤ body.len →
      ∀ r, pkt.RelayRequest ≠ .ok (r, some Err.ErrTooSmall)) := by
  have hlen : body.len = body.elems.length := rfl
  refine ⟨?_, ?_, ?_⟩
  · intro h
    unfold Packet.RelayRequest
    rw [ht, hb]
    simp only [bind, Except.bind, pure, Except.pure, if_true]
    rw [if_pos (by omega)]
  · intro h1 h2
    rw [hlen] at h1 h2
    have e1 := Slice.sliceFrom_ok body 32 (by omega)
    have e2 := UInt16_i_drop body 32 (by omega)
    unfold Packet.RelayRequest
    rw [ht, hb]
    simp only [bind, Except.bind, pure, Except.pure, if_true]
    rw [if_neg (by omega)]
    simp only [e1, e2]
    rw [if_pos (by omega)]
    have hc : copy (make 32) body.elems = body.elems.take 32 := by
      have hm : min 32 body.elems.length = 32 := by omega
      simp [copy, make, hm]
    simp [RelayRequest.zero, hc]
  · intro h r hr
    rw [RelayRequest_past_guards pkt body ht hb h] at hr
    split at hr
    · injection hr with hr
      injection hr with _ hr
      exact Option.noConfusion hr
    · exact Except.noConfusion hr

/-- Witness for C5 (amended): a relay-request packet with a 3-byte body. -/
theorem RelayRequest_too_small_witness :
    Packet.RelayRequest ⟨⟨[0x6D, 0x30, 0x52, 0xE9, 0x52, 0, 1, 2, 3], []⟩⟩
      = .ok (none, some Err.ErrTooSmall) :=
  (RelayRequest_too_small ⟨⟨[0x6D, 0x30, 0x52, 0xE9, 0x52, 0, 1, 2, 3], []⟩⟩ ⟨[1, 2, 3], []⟩
    (by decide) (by decide)).1 (by decide)

set_option maxRecDepth 100000 in
/-- C10 (code evaluated at the failing input): a buffer accepted by `Parse`
whose body has 434 bytes, `hcl = 0` and a declared data length of 65535 makes
`RelayRequest()` panic on the slice `body[425:425+65535]`: the declared data
length is never checked against the body. -/
theorem RelayRequest_panics_on_declared_length :
    ∃ pkt, Parse ([0x6D, 0x30, 0x52, 0xE9, 0x52, 0] ++ List.replicate 422 0 ++ [0xFF, 0xFF] ++
        List.replicate 10 0) = (some pkt, none) ∧
      pkt.RelayRequest = .error .sliceBounds :=
  ⟨⟨⟨[0x6D, 0x30, 0x52, 0xE9, 0x52, 0] ++ List.replicate 422 0 ++ [0xFF, 0xFF] ++
      List.replicate 10 0, []⟩⟩, by decide, by decide⟩

end comm

namespace i2p

open Go

theorem copy_make_le (n : Nat) (dg : List Nat) (h : dg.length ≤ n) :
    copy (make n) dg = dg ++ List.replicate (n - dg.length) 0 := by
  have hm : min n dg.length = dg.length := by omega
  simp [copy, make, hm]

theorem indexFrom_lf (hdr rest : List Nat) (k : Nat) (h : 10 ∉ hdr) :
    bytes.indexFrom [10] (hdr ++ 10 :: rest) k = ((k + hdr.length : Nat) : Int) := by
  induction hdr generalizing k with
  | nil => simp [bytes.indexFrom, List.isPrefixOf]
  | cons x xs ih =>
    have hx : x ≠ 10 := fun e => h (by simp [e])
    have hxs : 10 ∉ xs := fun e => h (by simp [e])
    have hp : List.isPrefixOf [10] (x :: (xs ++ 10 :: rest)) = false := by
      simp [List.isPrefixOf, Ne.symm hx]
    have hstep : bytes.indexFrom [10] (x :: (xs ++ 10 :: rest)) k
        = bytes.indexFrom [10] (xs ++ 10 :: rest) (k + 1) := by
      rw [bytes.indexFrom, hp]
      rfl
    rw [List.cons_append, hstep, ih (k + 1) hxs, List.length_cons]
    congr 1
    omega

/-- What `ReadFrom` does on a datagram whose first line feed follows a header
of at least two bytes. -/
theorem ReadFrom_eq (hdr payload d : List Nat) (hlf : 10 ∉ hdr) (h1 : 1 < hdr.length)
    (hlen : (hdr ++ 10 :: payload).length ≤ DatagramMTU) :
    samPacketConn.ReadFrom (hdr ++ 10 :: payload) none d =
      .ok (if d.length ≤ payload.length then
          ⟨0, some (hdr ++ [10]), none, copy d payload⟩
        else ⟨-1, some (hdr ++ [10]), some Err.ErrDatagramOverflow, d⟩) := by
  unfold samPacketConn.ReadFrom
  generalize DatagramMTU = M at hlen ⊢
  have hlen2 : hdr.length + (payload.length + 1) ≤ M := by simpa using hlen
  have hb : copy (make M) (hdr ++ 10 :: payload)
      = hdr ++ 10 :: (payload ++ List.replicate (M - (hdr ++ 10 :: payload).length) 0) := by
    rw [copy_make_le _ _ hlen]
    simp
  have hi : bytes.Index (copy (make M) (hdr ++ 10 :: payload)) [10]
      = (hdr.length : Int) := by
    rw [hb, bytes.Index, indexFrom_lf _ _ 0 hlf]
    simp
  have hrn : (min ((hdr ++ 10 :: payload).length : Int) (M : Int))
      = ((hdr.length + 1 + payload.length : Nat) : Int) := by
    rw [min_eq_left (by exact_mod_cast hlen)]
    simp only [List.length_append, List.length_cons]
    congr 1
    omega
  have hcap : (copy (make M) (hdr ++ 10 :: payload)).length = M := by
    rw [copy_make_le _ _ hlen]
    simp only [List.length_append, List.length_replicate, List.length_cons]
    omega
  have ht : ((hdr.length : Int) + 1).toNat = hdr.length + 1 := by omega
  have hr : (((hdr.length + 1 + payload.length : Nat) : Int)).toNat
      = hdr.length + 1 + payload.length := by omega
  have e2 : hdr ++ 10 :: (payload ++ List.replicate (M - (hdr ++ 10 :: payload).length) 0)
      = (hdr ++ [10]) ++ (payload ++ List.replicate
      (M - (hdr ++ 10 :: payload).length) 0) := by simp
  have hs1 : Slice.sliceRange ⟨copy (make M) (hdr ++ 10 :: payload), []⟩ 0 (hdr.length + 1)
      = .ok ⟨hdr ++ [10], payload ++ List.replicate (M - (hdr ++ 10 :: payload).length) 0⟩ := by
    have e3 : hdr.length + 1 = (hdr ++ [10]).length := by simp
    simp only [Slice.sliceRange, Slice.cap, hcap, List.length_nil, List.append_nil]
    rw [if_pos ⟨by omega, by omega⟩, hb, e2, e3, List.drop_left, Nat.sub_zero, List.drop_zero,
      List.take_left]
  have hs2 : Slice.sliceRange ⟨copy (make M) (hdr ++ 10 :: payload), []⟩ (hdr.length + 1)
      (hdr.length + 1 + payload.length)
      = .ok ⟨payload, List.replicate (M - (hdr ++ 10 :: payload).length) 0⟩ := by
    have e1 : hdr.length + 1 + payload.length - (hdr.length + 1) = payload.length := by omega
    have e3 : hdr.length + 1 = (hdr ++ [10]).length := by simp
    have e4 : hdr.length + 1 + payload.length = ((hdr ++ [10]) ++ payload).length := by
      simp only [List.length_append, List.length_cons, List.length_nil]
    simp only [Slice.sliceRange, Slice.cap, hcap, List.length_nil, List.append_nil]
    rw [if_pos ⟨by omega, by omega⟩, e1, hb, e2]
    congr 2
    · rw [e3, List.drop_left, List.take_left]
    · rw [e4, ← List.append_assoc, List.drop_left]
  simp only [hi, hrn, if_true, ht, hr, hs1, hs2, bind_ok]
  rw [if_pos (by exact_mod_cast h1)]
  by_cases hd : d.length ≤ payload.length
  · have hd2 : (d.length : Int) ≤ ((hdr.length + 1 + payload.length : Nat) : Int)
        - ((hdr.length : Int) + 1) := by omega
    rw [if_pos hd2, if_pos hd]
    rfl
  · have hd2 : ¬ (d.length : Int) ≤ ((hdr.length + 1 + payload.length : Nat) : Int)
        - ((hdr.length : Int) + 1) := by omega
    rw [if_neg hd2, if_neg hd]
    rfl

theorem copy_le (dst src : List Nat) (h : src.length ≤ dst.length) :
    copy dst src = src ++ dst.drop src.length := by
  have hm : min dst.length src.length = src.length := by omega
  simp [copy, hm]

theorem copyAt_length (pre rest src : List Nat) (h : src.length ≤ rest.length) :
    copyAt (pre ++ rest) pre.length src = pre ++ (src ++ rest.drop src.length) := by
  rw [copyAt, List.take_left, List.drop_left, copy_le _ _ h]

theorem set_length (pre rest : List Nat) (x v : Nat) :
    (pre ++ x :: rest).set pre.length v = pre ++ v :: rest := by
  induction pre with
  | nil => rfl
  | cons y ys ih => simp [List.set, ih]

/-- The datagram `sd` that `WriteTo` builds. -/
theorem WriteTo_sd (name a d : List Nat) :
    copyAt
        (List.set
          (copyAt
            (List.set
              (copyAt
                ((((make (d.length + (4 + name.length + 1 + a.length + 1))).set 0 51).set 1 46).set
                  2 48 |>.set 3 32)
                4 name)
              (4 + name.length) 32)
            (4 + name.length) a)
          (4 + name.length + 1 + a.length + 1 - 1) 10)
        (4 + name.length + 1 + a.length + 1) d
      = [51, 46, 48, 32] ++ name ++ (if a = [] then [32] else a ++ [0]) ++ [10] ++ d := by
  have h0 : make (d.length + (4 + name.length + 1 + a.length + 1))
      = 0 :: 0 :: 0 :: 0 :: List.replicate (name.length + (1 + (a.length + (1 + d.length)))) 0 := by
    have e : d.length + (4 + name.length + 1 + a.length + 1)
        = name.length + (1 + (a.length + (1 + d.length))) + 1 + 1 + 1 + 1 := by omega
    rw [make, e]
    rfl
  have h1 : ((((make (d.length + (4 + name.length + 1 + a.length + 1))).set 0 51).set 1 46).set
        2 48 |>.set 3 32)
      = [51, 46, 48, 32] ++ List.replicate (name.length + (1 + (a.length + (1 + d.length)))) 0 := by
    rw [h0]
    rfl
  have h2 : copyAt ([51, 46, 48, 32] ++
        List.replicate (name.length + (1 + (a.length + (1 + d.length)))) 0) 4 name
      = ([51, 46, 48, 32] ++ name) ++ 0 :: List.replicate (a.length + (1 + d.length)) 0 := by
    have := copyAt_length [51, 46, 48, 32]
      (List.replicate (name.length + (1 + (a.length + (1 + d.length)))) 0) name (by simp)
    simp only [List.length_cons, List.length_nil] at this
    rw [this, List.drop_replicate]
    have e : name.length + (1 + (a.length + (1 + d.length))) - name.length
        = (a.length + (1 + d.length)) + 1 := by omega
    rw [e, List.replicate_succ]
    simp
  have h3 : (([51, 46, 48, 32] ++ name) ++ 0 :: List.replicate (a.length + (1 + d.length)) 0).set
        (4 + name.length) 32
      = ([51, 46, 48, 32] ++ name) ++ 32 :: List.replicate (a.length + (1 + d.length)) 0 := by
    have e : 4 + name.length = ([51, 46, 48, 32] ++ name).length := by
      simp only [List.length_append, List.length_cons, List.length_nil]
    rw [e, set_length]
  have h4 : copyAt (([51, 46, 48, 32] ++ name) ++
        32 :: List.replicate (a.length + (1 + d.length)) 0) (4 + name.length) a
      = ([51, 46, 48, 32] ++ name ++ a ++ (if a = [] then [32] else [0])) ++
          0 :: List.replicate d.length 0 := by
    have e : 4 + name.length = ([51, 46, 48, 32] ++ name).length := by
      simp only [List.length_append, List.length_cons, List.length_nil]
    rw [e, copyAt_length _ _ _ (by simp; omega)]
    cases a with
    | nil =>
      have e1 : (0 : Nat) + (1 + d.length) = d.length + 1 := by omega
      simp [e1, List.replicate_succ]
    | cons x xs =>
      have e1 : xs.length + 1 + (1 + d.length) - xs.length = d.length + 1 + 1 := by omega
      simp [List.drop_replicate, e1, List.replicate_succ]
  have h5 : (([51, 46, 48, 32] ++ name ++ a ++ (if a = [] then [32] else [0])) ++
        0 :: List.replicate d.length 0).set (4 + name.length + 1 + a.length + 1 - 1) 10
      = ([51, 46, 48, 32] ++ name ++ a ++ (if a = [] then [32] else [0])) ++
          10 :: List.replicate d.length 0 := by
    have e : 4 + name.length + 1 + a.length + 1 - 1
        = ([51, 46, 48, 32] ++ name ++ a ++ (if a = [] then [32] else [0])).length := by
      split <;> simp <;> omega
    rw [e, set_length]
  have h6 : copyAt (([51, 46, 48, 32] ++ name ++ a ++ (if a = [] then [32] else [0])) ++
        10 :: List.replicate d.length 0) (4 + name.length + 1 + a.length + 1) d
      = [51, 46, 48, 32] ++ name ++ (if a = [] then [32] else a ++ [0]) ++ [10] ++ d := by
    have e : 4 + name.length + 1 + a.length + 1
        = ([51, 46, 48, 32] ++ name ++ a ++ (if a = [] then [32] else [0]) ++ [10]).length := by
      split <;> simp <;> omega
    have e2 : ([51, 46, 48, 32] ++ name ++ a ++ (if a = [] then [32] else [0])) ++
        10 :: List.replicate d.length 0
        = ([51, 46, 48, 32] ++ name ++ a ++ (if a = [] then [32] else [0]) ++ [10]) ++
        List.replicate d.length 0 := by simp
    rw [e2, e, copyAt_length _ _ _ (by simp)]
    split <;> simp_all
  rw [h1, h2, h3, h4, h5, h6]

theorem utf8Len_cons (c : Char) (s : List Char) :
    bufio.utf8Len (c :: s) = c.utf8Size + bufio.utf8Len s := by
  simp [bufio.utf8Len]

theorem scanWordsAux_eq_wordsAux (line cur : List Char)
    (h : bufio.utf8Len cur + bufio.utf8Len line < bufio.MaxScanTokenSize) :
    bufio.scanWordsAux line cur = bufio.wordsAux line cur := by
  induction line generalizing cur with
  | nil =>
    have h0 : bufio.utf8Len ([] : List Char) = 0 := rfl
    rw [h0] at h
    rw [bufio.scanWordsAux, bufio.wordsAux]
    by_cases hc : cur = []
    · rw [if_pos hc, if_pos hc]
    · rw [if_neg hc, if_neg hc, if_pos (by omega)]
  | cons c cs ih =>
    rw [utf8Len_cons] at h
    have h0 : bufio.utf8Len ([] : List Char) = 0 := rfl
    rw [bufio.scanWordsAux, bufio.wordsAux]
    by_cases hs : bufio.isSpace c = true
    · rw [if_pos hs, if_pos hs]
      by_cases hc : cur = []
      · rw [if_pos hc, if_pos hc]
        exact ih [] (by rw [h0]; omega)
      · rw [if_neg hc, if_neg hc, if_pos (by omega), ih [] (by rw [h0]; omega)]
    · rw [if_neg hs, if_neg hs]
      exact ih (c :: cur) (by rw [utf8Len_cons]; omega)

/-- On a line shorter than the scanner buffer the scanner delivers exactly the
words of the line. -/
theorem ScanWords_eq_words (line : List Char)
    (h : bufio.utf8Len line < bufio.MaxScanTokenSize) :
    bufio.ScanWords line = bufio.words line := by
  have h0 : bufio.utf8Len ([] : List Char) = 0 := rfl
  exact scanWordsAux_eq_wordsAux line [] (by rw [h0]; omega)

/-- A word that does not fit the scanner buffer together with the white-space
rune that ends it stops the scanner: neither it nor anything after it is
delivered. -/
theorem scanWordsAux_oversize (w rest cur : List Char) (c : Char)
    (hw : ∀ x ∈ w, bufio.isSpace x = false) (hc : bufio.isSpace c = true)
    (hne : cur ≠ [] ∨ w ≠ [])
    (hbig : bufio.MaxScanTokenSize < bufio.utf8Len cur + bufio.utf8Len w + c.utf8Size) :
    bufio.scanWordsAux (w ++ c :: rest) cur = [] := by
  induction w generalizing cur with
  | nil =>
    have h0 : bufio.utf8Len ([] : List Char) = 0 := rfl
    rw [h0] at hbig
    have hcur : cur ≠ [] := by
      rcases hne with h | h
      · exact h
      · exact absurd rfl h
    rw [List.nil_append, bufio.scanWordsAux, if_pos hc, if_neg hcur, if_neg (by omega)]
  | cons x xs ih =>
    have hx : ¬ (bufio.isSpace x = true) := by
      rw [hw x (List.mem_cons_self _ _)]
      exact Bool.noConfusion
    rw [utf8Len_cons] at hbig
    rw [List.cons_append, bufio.scanWordsAux, if_neg hx]
    exact ih (x :: cur) (fun y hy => hw y (List.mem_cons_of_mem _ hy))
      (Or.inl (List.cons_ne_nil _ _)) (by rw [utf8Len_cons]; omega)

/-- A reply line whose first word does not fit the scanner buffer yields no
token at all, so `LookupI2P` returns the empty address with a nil error,
whatever the word is. -/
theorem LookupI2P_oversize_first_word (cn : Conn) (name w rest : List Char) (c : Char)
    (hw : ∀ x ∈ w, bufio.isSpace x = false) (hc : bufio.isSpace c = true) (hne : w ≠ [])
    (hbig : bufio.MaxScanTokenSize < bufio.utf8Len w + c.utf8Size) :
    samSession.LookupI2P (some cn, none) none (w ++ c :: rest, none) name = ([], none) := by
  have h0 : bufio.utf8Len ([] : List Char) = 0 := rfl
  have hs : bufio.ScanWords (w ++ c :: rest) = [] :=
    scanWordsAux_oversize w rest [] c hw hc (Or.inr hne) (by rw [h0]; omega)
  simp only [samSession.LookupI2P, if_true, hs]
  rfl

theorem scan_skipped (name line t : List Char) (ts : List (List Char))
    (st : List Char × Option Err) (h : t ∈ skippedTokens name) :
    samSession.LookupI2P.scan name line (t :: ts) st = samSession.LookupI2P.scan name line ts st := by
  simp only [skippedTokens, List.mem_cons, List.mem_singleton, List.not_mem_nil, or_false] at h
  rw [samSession.LookupI2P.scan]
  by_cases h1 : t = "RESULT=OK".data ∨ t = "NAMING".data ∨ t = "REPLY".data
  · rw [if_pos h1]
  · rw [if_neg h1, if_pos (by tauto)]

theorem scan_skip_all (name line : List Char) (pre ts : List (List Char))
    (st : List Char × Option Err) (h : ∀ p ∈ pre, p ∈ skippedTokens name) :
    samSession.LookupI2P.scan name line (pre ++ ts) st = samSession.LookupI2P.scan name line ts st := by
  induction pre with
  | nil => rfl
  | cons p ps ih =>
    rw [List.cons_append, scan_skipped name line p _ st (h p (List.mem_cons_self _ _))]
    exact ih (fun q hq => h q (List.mem_cons_of_mem _ hq))

theorem value_not_skipped (name t : List Char) (h : "VALUE=".data.isPrefixOf t = true) :
    t ∉ skippedTokens name := by
  intro hm
  simp only [skippedTokens, List.mem_cons, List.mem_singleton, List.not_mem_nil, or_false] at hm
  rcases hm with e | e | e | e | e <;> subst e <;> exact Bool.noConfusion h

theorem scan_value (name line t : List Char) (ts : List (List Char))
    (st : List Char × Option Err) (h : "VALUE=".data.isPrefixOf t = true) :
    samSession.LookupI2P.scan name line (t :: ts) st = (t.drop 6, st.2) := by
  have hn := value_not_skipped name t h
  simp only [skippedTokens, List.mem_cons, List.mem_singleton, List.not_mem_nil, or_false] at hn
  rw [samSession.LookupI2P.scan, if_neg (by tauto), if_neg (by tauto), if_pos h]

theorem scan_no_value (name line : List Char) (ts : List (List Char))
    (st : List Char × Option Err)
    (hv : ∀ t ∈ ts, "VALUE=".data.isPrefixOf t = false) :
    samSession.LookupI2P.scan name line ts st
      = (st.1, if ∀ t ∈ ts, t ∈ skippedTokens name then st.2 else some (Err.New line)) := by
  induction ts generalizing st with
  | nil => simp [samSession.LookupI2P.scan]
  | cons t ts ih =>
    have hts : ∀ u ∈ ts, "VALUE=".data.isPrefixOf u = false :=
      fun u hu => hv u (List.mem_cons_of_mem _ hu)
    by_cases hs : t ∈ skippedTokens name
    · rw [scan_skipped name line t ts st hs, ih st hts]
      simp [hs]
    · have hs2 := hs
      simp only [skippedTokens, List.mem_cons, List.mem_singleton, List.not_mem_nil,
        or_false] at hs2
      have hvt : ¬ ("VALUE=".data.isPrefixOf t = true) := by
        rw [hv t (List.mem_cons_self _ _)]
        exact Bool.noConfusion
      rw [samSession.LookupI2P.scan, if_neg (by tauto), if_neg (by tauto), if_neg hvt,
        ih _ hts]
      simp [hs]

/-- C6 (what the code does): when the network check passes, `WriteTo` hands to
the socket the bytes of "3.0 ", the session name, then the address directly
after the name (the separating space is overwritten by the first address
byte) followed by a zero byte, then the line feed and the payload; only for an
empty address is the space kept.  When the socket reports the whole datagram
as sent, the returned count is `len(d)`. -/
theorem WriteTo_frame (ToUpper : List Char → List Char) (name : List Nat)
    (send : List Nat → Int × Option Err) (d : List Nat) (toAddr : NetAddr)
    (hnet : ToUpper toAddr.network = "I2P".data) :
    (samPacketConn.WriteTo ToUpper name send d toAddr).2
      = [[51, 46, 48, 32] ++ name ++
          (if toAddr.string = [] then [32] else toAddr.string ++ [0]) ++ [10] ++ d] ∧
    (send (builtDatagram name toAddr.string d)
        = (((builtDatagram name toAddr.string d).length : Int), none) →
      (samPacketConn.WriteTo ToUpper name send d toAddr).1 = ((d.length : Int), none)) := by
  have hsd : _ = builtDatagram name toAddr.string d := WriteTo_sd name toAddr.string d
  have hlen : ((builtDatagram name toAddr.string d).length : Int)
      - ((4 + name.length + 1 + toAddr.string.length + 1 : Nat) : Int) = (d.length : Int) := by
    have : (builtDatagram name toAddr.string d).length
        = d.length + (4 + name.length + 1 + toAddr.string.length + 1) := by
      unfold builtDatagram
      split <;> rename_i h <;> simp [h] <;> omega
    omega
  unfold samPacketConn.WriteTo
  rw [if_neg (by simp [hnet])]
  simp only [hsd]
  constructor
  · show _ = [builtDatagram name toAddr.string d]
    split <;> rfl
  · intro hs
    rw [hs]
    simp only [if_true, hlen]

/-- Witness for C6: session name "s", address "A" and payload "x" give the
datagram "3.0 sA", a zero byte, a line feed and "x"; the claimed framing
"3.0 s A", line feed, "x" is a different byte sequence. -/
theorem WriteTo_frame_witness :
    (samPacketConn.WriteTo (fun s => s.map Char.toUpper) [115] (fun sd => ((sd.length : Int), none))
        [120] ⟨"i2p".data, [65]⟩).2 = [[51, 46, 48, 32, 115, 65, 0, 10, 120]] ∧
    [51, 46, 48, 32, 115, 65, 0, 10, 120] ≠ [51, 46, 48, 32, 115, 32, 65, 10, 120] :=
  ⟨(WriteTo_frame (fun s => s.map Char.toUpper) [115] (fun sd => ((sd.length : Int), none))
      [120] ⟨"i2p".data, [65]⟩ (by decide)).1, by decide⟩

/-- C7 (code evaluated at the failing input): for the datagram "ab", line
feed, "xy" a caller buffer of four bytes, large enough for the two payload
bytes, gets `n = -1` and `ErrDatagramOverflow`, while a caller buffer of one
byte, too small, gets a nil error, `n = 0` and the first payload byte copied;
the returned address "ab" plus line feed includes the line feed. -/
theorem ReadFrom_inverted_size_check :
    samPacketConn.ReadFrom [97, 98, 10, 120, 121] none [0, 0, 0, 0]
      = .ok ⟨-1, some [97, 98, 10], some Err.ErrDatagramOverflow, [0, 0, 0, 0]⟩ ∧
    samPacketConn.ReadFrom [97, 98, 10, 120, 121] none [0]
      = .ok ⟨0, some [97, 98, 10], none, [120]⟩ :=
  ⟨(ReadFrom_eq [97, 98] [120, 121] [0, 0, 0, 0] (by decide) (by decide) (by decide)).trans
      (by decide),
    (ReadFrom_eq [97, 98] [120, 121] [0] (by decide) (by decide) (by decide)).trans
      (by decide)⟩

/-- C8 (counterexample): the reply "NAMING REPLY RESULT=OK NAME=foo", far
shorter than the scanner buffer, has no word beginning with VALUE= and yet the
lookup of "foo" returns the empty address with a nil error. -/
theorem LookupI2P_no_value_nil_error :
    bufio.utf8Len "NAMING REPLY RESULT=OK NAME=foo\n".data < bufio.MaxScanTokenSize ∧
    (∀ t ∈ bufio.words "NAMING REPLY RESULT=OK NAME=foo\n".data,
      "VALUE=".data.isPrefixOf t = false) ∧
    samSession.LookupI2P (some 1, none) none ("NAMING REPLY RESULT=OK NAME=foo\n".data, none)
      "foo".data = ([], none) := by
  decide

/-- C8 (amended): for reply lines shorter than the scanner buffer of 64 KiB,
whose tokens are the words of the line: the reply
"NAMING REPLY RESULT=OK NAME=foo VALUE=abc123" looked up for "foo" gives the
address abc123 with no error; every reply whose tokens before the first
VALUE=v token are all among NAMING, REPLY, RESULT=OK and NAME=name gives v with
no error; every reply without a VALUE= token gives the empty address, with the
reply line as error when some token is not one of NAMING, REPLY, RESULT=OK,
NAME=name, NAME=ME, and with a nil error when all tokens are. -/
theorem LookupI2P_reply_scan (c : Conn) (name line : List Char)
    (hlen : bufio.utf8Len line < bufio.MaxScanTokenSize) :
    (bufio.utf8Len "NAMING REPLY RESULT=OK NAME=foo VALUE=abc123\n".data
        < bufio.MaxScanTokenSize ∧
      samSession.LookupI2P (some c, none) none
        ("NAMING REPLY RESULT=OK NAME=foo VALUE=abc123\n".data, none) "foo".data
        = ("abc123".data, none)) ∧
    (∀ pre t rest, bufio.words line = pre ++ t :: rest →
      (∀ p ∈ pre, p ∈ ["NAMING".data, "REPLY".data, "RESULT=OK".data, "NAME=".data ++ name]) →
      "VALUE=".data.isPrefixOf t = true →
      samSession.LookupI2P (some c, none) none (line, none) name = (t.drop 6, none)) ∧
    ((∀ t ∈ bufio.words line, "VALUE=".data.isPrefixOf t = false) →
      (∃ t ∈ bufio.words line, t ∉ skippedTokens name) →
      samSession.LookupI2P (some c, none) none (line, none) name = ([], some (Err.New line))) ∧
    ((∀ t ∈ bufio.words line, "VALUE=".data.isPrefixOf t = false) →
      (∀ t ∈ bufio.words line, t ∈ skippedTokens name) →
      samSession.LookupI2P (some c, none) none (line, none) name = ([], none)) := by
  have hw := ScanWords_eq_words line hlen
  refine ⟨⟨by decide, rfl⟩, ?_, ?_, ?_⟩
  · intro pre t rest hsplit hpre hval
    have hpre2 : ∀ p ∈ pre, p ∈ skippedTokens name := by
      intro p hp
      have := hpre p hp
      simp only [skippedTokens, List.mem_cons, List.mem_singleton, List.not_mem_nil,
        or_false] at this ⊢
      tauto
    simp only [samSession.LookupI2P, if_true]
    rw [hw, hsplit, scan_skip_all name line pre _ _ hpre2, scan_value name line t rest _ hval]
  · intro hv ⟨t, ht, hns⟩
    simp only [samSession.LookupI2P, if_true]
    rw [hw, scan_no_value name line _ _ hv, if_neg (fun hall => hns (hall t ht))]
  · intro hv hall
    simp only [samSession.LookupI2P, if_true]
    rw [hw, scan_no_value name line _ _ hv, if_pos hall]

/-- Witness for C8 (amended): the reply "NAMING REPLY RESULT=KEY_NOT_FOUND
NAME=foo" has no VALUE= token and an unrecognised token, so the lookup fails
with the reply line as error. -/
theorem LookupI2P_reply_scan_witness :
    samSession.LookupI2P (some 1, none) none
      ("NAMING REPLY RESULT=KEY_NOT_FOUND NAME=foo\n".data, none) "foo".data
      = ([], some (Err.New "NAMING REPLY RESULT=KEY_NOT_FOUND NAME=foo\n".data)) :=
  (LookupI2P_reply_scan 1 "foo".data "NAMING REPLY RESULT=KEY_NOT_FOUND NAME=foo\n".data
    (by decide)).2.2.1 (by decide) (by decide)

/-- The two parts of the HELLO-reply classification that do not depend on the
NOVERSION literal: a line beginning with "HELLO REPLY RESULT=OK" returns the
connection with a nil error, every other line returns no connection and an
error. -/
theorem connect_reply_cases (c : Conn) (line : List Char) :
    ("HELLO REPLY RESULT=OK".data.isPrefixOf line = true →
      samSession.connect (some c, none) none (line, none) = (some c, none)) ∧
    ("HELLO REPLY RESULT=OK".data.isPrefixOf line = false →
      (samSession.connect (some c, none) none (line, none)).1 = none ∧
      (samSession.connect (some c, none) none (line, none)).2 ≠ none) := by
  constructor
  · intro h
    have hne : line ≠ "HELO REPLY RESULT=NOVERSION".data := by
      intro e
      subst e
      exact Bool.noConfusion h
    simp only [samSession.connect, if_true]
    rw [if_neg hne, if_pos h]
  · intro h
    have hp : ¬ ("HELLO REPLY RESULT=OK".data.isPrefixOf line = true) := by
      rw [h]
      exact Bool.noConfusion
    simp only [samSession.connect, if_true]
    by_cases hv : line = "HELO REPLY RESULT=NOVERSION".data
    · rw [if_pos hv]
      exact ⟨rfl, by simp⟩
    · rw [if_neg hv, if_neg hp]
      exact ⟨rfl, by simp⟩

/-- C9 (code evaluated at the failing input): on the reply line
"HELLO REPLY RESULT=NOVERSION" with its line feed, `connect` returns no
connection and the generic error that carries the line, not the error
"router does not support sam version 3". -/
theorem connect_noversion_generic_error (c : Conn) :
    samSession.connect (some c, none) none ("HELLO REPLY RESULT=NOVERSION\n".data, none)
      = (none, some (Err.New "HELLO REPLY RESULT=NOVERSION\n".data)) ∧
    samSession.connect (some c, none) none ("HELLO REPLY RESULT=NOVERSION\n".data, none)
      ≠ (none, some (Err.New "router does not support sam version 3".data)) := by
  have h : samSession.connect (some c, none) none ("HELLO REPLY RESULT=NOVERSION\n".data, none)
      = (none, some (Err.New "HELLO REPLY RESULT=NOVERSION\n".data)) := by
    simp only [samSession.connect, if_true]
    rw [if_neg (by decide), if_neg (by decide)]
  refine ⟨h, ?_⟩
  rw [h]
  decide

end i2p
